import Mathlib

/-!
The EXPORT declaration marking of `include/sqPlatformSpecific.h`.

The header consists of one conditional group (source lines 8 to 12):

     8 | #ifdef _WIN32
     9 | #   define EXPORT(returnType) extern __declspec(dllexport) returnType
    10 | #else
    11 | #   define EXPORT(returnType) extern returnType
    12 | #endif

The development embeds the header as a function on the state of the C
preprocessor (the table of defined names plus the diagnostics issued so far), and
embeds the macro replacement the preprocessor performs on a line of tokens that
follows the header: identification of the arguments of an invocation, complete
macro replacement of each argument before it is substituted (C11 6.10.3.1), and
rescanning of the replacement together with the rest of the line (6.10.3.4), a
name never being replaced inside its own replacement.  Preprocessing tokens are
represented by their spelling.  The operators `#` and `##` and variable argument
lists do not occur in the header and are not interpreted.

Macro replacement is defined with a step budget (`fuel`); results are stated for
every budget above an explicit bound, and a result obtained with some budget is
the result for every larger budget (`expand_mono`).
-/

namespace SqPlatformSpecific

/-- A preprocessing token, represented by its spelling. -/
abbrev Token := String

/-- What a `#define` records for a name: the parameter list (`none` for an
object-like definition) and the replacement list. -/
structure Defn where
  params : Option (List String)
  body : List Token
  deriving DecidableEq, Repr

/-- The table of currently defined names, most recent first. -/
abbrev Table := List (String × Defn)

/-- Messages the preprocessor issues. -/
inductive Diagnostic where
  /-- A name was redefined with a different definition (reported as a warning,
  the new definition is used). -/
  | redefined (name : String)
  /-- A `#error` directive was processed. -/
  | error (text : List Token)
  deriving DecidableEq, Repr

/-- Whether a diagnostic is an error. -/
def Diagnostic.isError : Diagnostic → Bool
  | .redefined _ => false
  | .error _ => true

/-- Preprocessor state while a translation unit is read. -/
structure PPState where
  table : Table
  diagnostics : List Diagnostic
  deriving DecidableEq, Repr

/-- The state before the first line is read: the names predefined by the build
environment (compiler built-ins and command-line definitions), no diagnostics. -/
def start (env : Table) : PPState := ⟨env, []⟩

/-- The definition currently recorded for `name`, if any. -/
def lookupDefn (name : String) : Table → Option Defn
  | [] => none
  | (n, d) :: rest => if n = name then some d else lookupDefn name rest

/-- The test made by `#ifdef name`: is the name defined at all?  The
replacement text is not looked at. -/
def isDefined (name : String) (t : Table) : Bool :=
  (lookupDefn name t).isSome

/-- Remove every entry for `name`. -/
def eraseDefn (name : String) : Table → Table
  | [] => []
  | (n, d) :: rest => if n = name then eraseDefn name rest else (n, d) :: eraseDefn name rest

/-- The directive `#define name ...`.  A first definition is recorded.  A
redefinition with the same parameters and the same replacement list is accepted
silently and changes nothing; a differing redefinition is diagnosed (C11
6.10.3p2; GCC, Clang and MSVC report it as a warning) and the new definition
replaces the old one. -/
def define (name : String) (d : Defn) (s : PPState) : PPState :=
  match lookupDefn name s.table with
  | none => { s with table := (name, d) :: s.table }
  | some old =>
    if old = d then s
    else { table := (name, d) :: eraseDefn name s.table,
           diagnostics := s.diagnostics ++ [Diagnostic.redefined name] }

/-- Replacement list of line 9: `extern __declspec(dllexport) returnType`. -/
def exportWin32 : Defn :=
  { params := some ["returnType"],
    body := ["extern", "__declspec", "(", "dllexport", ")", "returnType"] }

/-- Replacement list of line 11: `extern returnType`. -/
def exportOther : Defn :=
  { params := some ["returnType"],
    body := ["extern", "returnType"] }

/-- The header `sqPlatformSpecific.h`, lines 8 to 12. -/
def sqPlatformSpecific (s : PPState) : PPState :=
  if isDefined "_WIN32" s.table then
    define "EXPORT" exportWin32 s
  else
    define "EXPORT" exportOther s

/-! ## Macro replacement in a line of tokens -/

/-- A token of the line being processed, with the names that must not be
replaced in it any more (the names whose replacement produced it). -/
structure HTok where
  tok : Token
  hide : List String
  deriving DecidableEq, Repr

/-- A token as read from the source file. -/
def plain (t : Token) : HTok := ⟨t, []⟩

/-- Failures of macro replacement. -/
inductive PPError where
  /-- An invocation with the wrong number of arguments. -/
  | argCount (name : String) (given expected : Nat)
  /-- An invocation whose closing parenthesis is missing. -/
  | unterminated (name : String)
  /-- The step budget of the model was used up (not a preprocessor error). -/
  | outOfFuel
  deriving DecidableEq, Repr

/-- Outcome of macro replacement. -/
inductive Outcome (α : Type) where
  | ok (value : α)
  | error (e : PPError)
  deriving DecidableEq, Repr

/-- Put a token that is not replaced in front of the outcome for the tokens
after it. -/
def consOk (t : HTok) : Outcome (List HTok) → Outcome (List HTok)
  | .ok l => .ok (t :: l)
  | .error e => .error e

/-- Add names to the hide set of every token. -/
def hsadd (names : List String) (ts : List HTok) : List HTok :=
  ts.map (fun t => ⟨t.tok, names ++ t.hide⟩)

/-- The names present in both hide sets. -/
def hsinter (a b : List String) : List String :=
  a.filter (fun n => b.contains n)

/-- The argument bound to the parameter spelled `t`, if `t` is a parameter. -/
def argFor : List String → List (List HTok) → Token → Option (List HTok)
  | p :: ps, a :: as, t => if t = p then some a else argFor ps as t
  | _, _, _ => none

/-- Argument substitution: every parameter in the replacement list is replaced
by the corresponding (already macro-replaced) argument, every other token of the
replacement list is kept. -/
def substitute (params : List String) (args : List (List HTok)) : List Token → List HTok
  | [] => []
  | t :: ts =>
    (match argFor params args t with
     | some a => a
     | none => [plain t]) ++ substitute params args ts

/-- Identify the arguments of an invocation.  The input starts right after the
opening parenthesis; `depth` counts nested open parentheses, `cur` is the
argument being read and `done` the arguments already complete.  Commas separate
arguments only outside nested parentheses.  Returns the arguments, the hide set
of the closing parenthesis and the tokens after it, or `none` when the closing
parenthesis is missing. -/
def collectArgs : Nat → List HTok → List (List HTok) → List HTok →
    Option (List (List HTok) × List String × List HTok)
  | _, _, _, [] => none
  | depth, cur, done, t :: ts =>
    if t.tok = "(" then collectArgs (depth + 1) (cur ++ [t]) done ts
    else if t.tok = ")" then
      match depth with
      | 0 => some (done ++ [cur], t.hide, ts)
      | d + 1 => collectArgs d (cur ++ [t]) done ts
    else if t.tok = "," ∧ depth = 0 then collectArgs 0 [] (done ++ [cur]) ts
    else collectArgs depth (cur ++ [t]) done ts

/-- Macro replacement of the arguments before substitution: each argument whose
parameter occurs in the replacement list is completely macro-replaced on its
own, by `full`. -/
def expandArgs (full : List HTok → Outcome (List HTok)) (body : List Token) :
    List String → List (List HTok) → Outcome (List (List HTok))
  | p :: ps, a :: as =>
    match (if body.contains p then full a else .ok a) with
    | .error e => .error e
    | .ok a1 =>
      match expandArgs full body ps as with
      | .error e => .error e
      | .ok r => .ok (a1 :: r)
  | _, _ => .ok []

/-- One step of macro replacement at the start of a token sequence; `full`
continues on what remains.
* A token whose own name is hidden, or that names no definition, is kept.
* An object-like name is replaced by its replacement list, and the result is
  rescanned together with the tokens after it.
* A function-like name followed by `(` is an invocation: the arguments are
  identified, their number is checked, they are macro-replaced and substituted,
  and the result is rescanned together with the tokens after the closing
  parenthesis.  A function-like name not followed by `(` is kept. -/
def expandStep (tbl : Table) (full : List HTok → Outcome (List HTok)) :
    List HTok → Outcome (List HTok)
  | [] => .ok []
  | t :: ts =>
    if t.hide.contains t.tok then consOk t (full ts)
    else
      match lookupDefn t.tok tbl with
      | none => consOk t (full ts)
      | some ⟨none, body⟩ =>
        full (hsadd (t.tok :: t.hide) (body.map plain) ++ ts)
      | some ⟨some params, body⟩ =>
        match ts with
        | [] => .ok [t]
        | p :: after =>
          if p.tok = "(" then
            match collectArgs 0 [] [] after with
            | none => .error (.unterminated t.tok)
            | some (args, closeHide, rest) =>
              let args1 := if params = [] ∧ args = [[]] then [] else args
              if args1.length = params.length then
                match expandArgs full body params args1 with
                | .error e => .error e
                | .ok eargs =>
                  full (hsadd (t.tok :: hsinter t.hide closeHide)
                          (substitute params eargs body) ++ rest)
              else .error (.argCount t.tok args1.length params.length)
          else consOk t (full ts)

/-- Complete macro replacement of a token sequence, with a step budget. -/
def expand (tbl : Table) : Nat → List HTok → Outcome (List HTok)
  | 0 => fun _ => .error .outOfFuel
  | n + 1 => expandStep tbl (expand tbl n)

/-- Macro replacement of a source line under the definitions `tbl`: the
spellings of the resulting tokens. -/
def preprocess (fuel : Nat) (tbl : Table) (line : List Token) : Outcome (List Token) :=
  match expand tbl fuel (line.map plain) with
  | .ok out => .ok (out.map HTok.tok)
  | .error e => .error e

/-- The definitions in force after the header has been read in the build
environment `env`. -/
def headerTable (env : Table) : Table :=
  (sqPlatformSpecific (start env)).table

/-- The token line `EXPORT ( T ) rest`. -/
def invocation (T rest : List Token) : List Token :=
  "EXPORT" :: "(" :: (T ++ ")" :: rest)

/-- What the text `EXPORT ( T )` becomes in a translation unit that starts by
including the header, for the build environment `env`. -/
def expandEXPORT (fuel : Nat) (env : Table) (T : List Token) : Outcome (List Token) :=
  preprocess fuel (headerTable env) (invocation T [])

/-- Scan of one argument: the parenthesis depth after the tokens, or `none` when
a token of the sequence would end the argument (a closing parenthesis or a comma
outside nested parentheses). -/
def argScan : Nat → List Token → Option Nat
  | d, [] => some d
  | d, t :: ts =>
    if t = "(" then argScan (d + 1) ts
    else if t = ")" then
      match d with
      | 0 => none
      | k + 1 => argScan k ts
    else if t = "," ∧ d = 0 then none
    else argScan d ts

/-- A token sequence that the preprocessor reads as exactly one argument:
parentheses balanced and no comma outside them. -/
def isSingleArg (T : List Token) : Bool :=
  argScan 0 T == some 0

/-- No token of `ts` is the name of a definition in `tbl`. -/
def inert (tbl : Table) (ts : List Token) : Bool :=
  ts.all (fun t => (lookupDefn t tbl).isNone)

/-- The export directive of the Windows variant, `__declspec(dllexport)`. -/
def exportDirective : List Token := ["__declspec", "(", "dllexport", ")"]

/-- The tokens that only the export directive uses. -/
def isExportDirectiveToken (t : Token) : Bool :=
  t == "__declspec" || t == "dllexport"

/-- Whether the token sequence `pat` stands at the start of a token sequence. -/
def startsWith : List Token → List Token → Bool
  | [], _ => true
  | _ :: _, [] => false
  | p :: ps, t :: ts => p == t && startsWith ps ts

/-- Delete the first occurrence of the contiguous token sequence `pat`. -/
def removeFirst (pat : List Token) : List Token → List Token
  | [] => []
  | t :: ts =>
    if startsWith pat (t :: ts) then (t :: ts).drop pat.length
    else t :: removeFirst pat ts

/-- A build environment for a Windows target: `_WIN32` predefined as `1`. -/
def win32Env : Table := [("_WIN32", ⟨none, ["1"]⟩)]

/-- A build environment for a POSIX target: `__linux__` and `__unix__` predefined,
`_WIN32` not. -/
def posixEnv : Table := [("__linux__", ⟨none, ["1"]⟩), ("__unix__", ⟨none, ["1"]⟩)]

/-- A Windows build environment of a GCC-style toolchain, where `__declspec` is
itself predefined: `__declspec(a)` stands for `__attribute__((a))`. -/
def mingwEnv : Table :=
  [("_WIN32", ⟨none, ["1"]⟩),
   ("__declspec", ⟨some ["a"], ["__attribute__", "(", "(", "a", ")", ")"]⟩)]

/-- A POSIX build environment with `sqInt` defined on the command line as
`long`. -/
def sqIntEnv : Table := [("sqInt", ⟨none, ["long"]⟩)]

/-- A POSIX build environment with `extern` defined on the command line as
`static`. -/
def staticEnv : Table := [("extern", ⟨none, ["static"]⟩)]

/-- A build environment with `_WIN32` defined as `0` and `__declspec(a)` defined
with an empty replacement list. -/
def emptyDeclspecEnv : Table :=
  [("_WIN32", ⟨none, ["0"]⟩), ("__declspec", ⟨some ["a"], []⟩)]

/-- The return type `enum { A, B }`, an enumeration declared in place. -/
def enumAB : List Token := ["enum", "\x7b", "A", ",", "B", "\x7d"]

theorem lookupDefn_eraseDefn_ne {n m : String} (h : n ≠ m) (t : Table) :
    lookupDefn n (eraseDefn m t) = lookupDefn n t := by
  induction t with
  | nil => rfl
  | cons p rest ih =>
    obtain ⟨k, d⟩ := p
    by_cases hk : k = m
    · subst hk
      simp [eraseDefn, lookupDefn, ih, Ne.symm h]
    · by_cases hn : k = n
      · subst hn
        simp [eraseDefn, lookupDefn, hk]
      · simp [eraseDefn, lookupDefn, hk, hn, ih]

theorem lookupDefn_define_self (name : String) (d : Defn) (s : PPState) :
    lookupDefn name (define name d s).table = some d := by
  unfold define
  cases hl : lookupDefn name s.table with
  | none => simp [lookupDefn]
  | some old =>
    by_cases ho : old = d
    · simp [ho, hl]
    · simp [ho, lookupDefn]

theorem lookupDefn_define_ne {n name : String} (h : n ≠ name) (d : Defn) (s : PPState) :
    lookupDefn n (define name d s).table = lookupDefn n s.table := by
  have h2 : ¬ name = n := fun e => h e.symm
  unfold define
  cases hl : lookupDefn name s.table with
  | none => simp [lookupDefn, h2]
  | some old =>
    by_cases ho : old = d
    · simp [ho]
    · simp [ho, lookupDefn, h2, lookupDefn_eraseDefn_ne h]

theorem define_define (name : String) (d : Defn) (s : PPState) :
    define name d (define name d s) = define name d s := by
  have h := lookupDefn_define_self name d s
  generalize define name d s = s1 at h
  simp [define, h]

theorem define_fresh (name : String) (d : Defn) (s : PPState)
    (h : lookupDefn name s.table = none) :
    define name d s = { s with table := (name, d) :: s.table } := by
  simp [define, h]

/-! ## The header -/

/-- The variant the header selects in the build environment `env`. -/
theorem sqPlatformSpecific_start (env : Table) :
    sqPlatformSpecific (start env)
      = define "EXPORT" (if isDefined "_WIN32" env then exportWin32 else exportOther)
          (start env) := by
  unfold sqPlatformSpecific
  cases h : isDefined "_WIN32" env <;> simp [start, h]

theorem lookupDefn_EXPORT (env : Table) :
    lookupDefn "EXPORT" (sqPlatformSpecific (start env)).table
      = some (if isDefined "_WIN32" env then exportWin32 else exportOther) := by
  rw [sqPlatformSpecific_start, lookupDefn_define_self]

theorem isDefined_WIN32_define_EXPORT (d : Defn) (s : PPState) :
    isDefined "_WIN32" (define "EXPORT" d s).table = isDefined "_WIN32" s.table := by
  unfold isDefined
  rw [lookupDefn_define_ne (by decide)]

theorem sqPlatformSpecific_twice (s : PPState) :
    sqPlatformSpecific (sqPlatformSpecific s) = sqPlatformSpecific s := by
  unfold sqPlatformSpecific
  cases h : isDefined "_WIN32" s.table
  · simp [isDefined_WIN32_define_EXPORT, h, define_define]
  · simp [isDefined_WIN32_define_EXPORT, h, define_define]

theorem diagnostics_define_noError (name : String) (d : Defn) (s : PPState)
    (hs : ∀ x ∈ s.diagnostics, x.isError = false) :
    ∀ x ∈ (define name d s).diagnostics, x.isError = false := by
  unfold define
  cases hl : lookupDefn name s.table with
  | none => simpa using hs
  | some old =>
    by_cases ho : old = d
    · simpa [ho] using hs
    · intro x hx
      simp [ho] at hx
      rcases hx with hx | hx
      · exact hs x hx
      · subst hx
        rfl

/-! ## The step budget -/

theorem consOk_outOfFuel (t : HTok) (r : Outcome (List HTok))
    (h : consOk t r ≠ .error .outOfFuel) : r ≠ .error .outOfFuel := by
  intro e
  subst e
  exact h rfl

theorem expandArgs_mono (f g : List HTok → Outcome (List HTok))
    (hfg : ∀ ts, f ts ≠ .error .outOfFuel → g ts = f ts) (body : List Token) :
    ∀ (ps : List String) (as : List (List HTok)),
      expandArgs f body ps as ≠ .error .outOfFuel →
      expandArgs g body ps as = expandArgs f body ps as := by
  intro ps
  induction ps with
  | nil => intro as _; simp [expandArgs]
  | cons p ps ih =>
    intro as h
    cases as with
    | nil => simp [expandArgs]
    | cons a as =>
      by_cases hb : body.contains p = true
      · simp only [expandArgs, hb, if_true] at h ⊢
        have hfa : f a ≠ .error .outOfFuel := by
          intro e
          rw [e] at h
          exact h rfl
        rw [hfg a hfa]
        cases hr : f a with
        | error e => rfl
        | ok a1 =>
          rw [hr] at h
          simp only at h ⊢
          have hin : expandArgs f body ps as ≠ .error .outOfFuel := by
            intro e
            rw [e] at h
            exact h rfl
          rw [ih as hin]
      · simp only [expandArgs, hb] at h ⊢
        simp only [Bool.false_eq_true, if_false] at h ⊢
        have hin : expandArgs f body ps as ≠ .error .outOfFuel := by
          intro e
          rw [e] at h
          exact h rfl
        rw [ih as hin]

theorem expandStep_mono (tbl : Table) (f g : List HTok → Outcome (List HTok))
    (hfg : ∀ ts, f ts ≠ .error .outOfFuel → g ts = f ts) :
    ∀ ts, expandStep tbl f ts ≠ .error .outOfFuel →
      expandStep tbl g ts = expandStep tbl f ts := by
  intro ts h
  cases ts with
  | nil => rfl
  | cons t ts =>
    by_cases hh : t.hide.contains t.tok = true
    · simp only [expandStep, hh, if_true] at h ⊢
      rw [hfg ts (consOk_outOfFuel _ _ h)]
    · simp only [expandStep, hh] at h ⊢
      simp only [Bool.false_eq_true, if_false] at h ⊢
      cases hl : lookupDefn t.tok tbl with
      | none =>
        rw [hl] at h
        simp only at h ⊢
        rw [hfg ts (consOk_outOfFuel _ _ h)]
      | some d =>
        obtain ⟨params, body⟩ := d
        rw [hl] at h
        cases params with
        | none =>
          simp only at h ⊢
          exact hfg _ h
        | some ps =>
          simp only at h ⊢
          cases ts with
          | nil => rfl
          | cons p after =>
            simp only at h ⊢
            by_cases hp : p.tok = "("
            · simp only [hp, if_true] at h ⊢
              cases hc : collectArgs 0 [] [] after with
              | none => rfl
              | some res =>
                obtain ⟨args, closeHide, rest⟩ := res
                rw [hc] at h
                simp only at h ⊢
                generalize (if ps = [] ∧ args = [[]] then [] else args) = args1 at h ⊢
                by_cases hlen : args1.length = ps.length
                · simp only [hlen, if_true] at h ⊢
                  have hea : expandArgs f body ps args1 ≠ .error .outOfFuel := by
                    intro e
                    rw [e] at h
                    exact h rfl
                  rw [expandArgs_mono f g hfg body _ _ hea]
                  cases he : expandArgs f body ps args1 with
                  | error e => rfl
                  | ok eargs =>
                    rw [he] at h
                    simp only at h ⊢
                    exact hfg _ h
                · simp only [hlen, if_false]
            · simp only [hp, if_false] at h ⊢
              rw [hfg _ (consOk_outOfFuel _ _ h)]

theorem expand_succ (tbl : Table) (n : Nat) :
    ∀ ts, expand tbl n ts ≠ .error .outOfFuel → expand tbl (n + 1) ts = expand tbl n ts := by
  induction n with
  | zero => intro ts h; exact absurd rfl h
  | succ k ih =>
    intro ts h
    exact expandStep_mono tbl (expand tbl k) (expand tbl (k + 1)) ih ts h

/-- A result obtained with some step budget is the result for every larger one. -/
theorem expand_mono (tbl : Table) (n m : Nat) (hnm : n ≤ m) (ts : List HTok)
    (h : expand tbl n ts ≠ .error .outOfFuel) : expand tbl m ts = expand tbl n ts := by
  induction m with
  | zero =>
    have : n = 0 := Nat.le_zero.mp hnm
    subst this
    rfl
  | succ k ih =>
    by_cases hk : n ≤ k
    · have e := ih hk
      rw [← e] at h
      rw [expand_succ tbl k ts h, e]
    · have : n = k + 1 := by omega
      subst this
      rfl

theorem preprocess_mono (tbl : Table) (n m : Nat) (hnm : n ≤ m) (line : List Token)
    (h : preprocess n tbl line ≠ .error .outOfFuel) :
    preprocess m tbl line = preprocess n tbl line := by
  have hx : expand tbl n (line.map plain) ≠ .error .outOfFuel := by
    intro e
    apply h
    simp [preprocess, e]
  simp only [preprocess, expand_mono tbl n m hnm _ hx]

/-- Two step budgets that both suffice give the same outcome. -/
theorem preprocess_stable (tbl : Table) (n m : Nat) (line : List Token)
    (hn : preprocess n tbl line ≠ .error .outOfFuel)
    (hm : preprocess m tbl line ≠ .error .outOfFuel) :
    preprocess n tbl line = preprocess m tbl line := by
  rcases Nat.le_total n m with h | h
  · exact (preprocess_mono tbl n m h line hn).symm
  · exact preprocess_mono tbl m n h line hm

/-! ## Replacement of an invocation of EXPORT -/

theorem expand_inert (tbl : Table) :
    ∀ (ts : List HTok) (n : Nat), (∀ t ∈ ts, lookupDefn t.tok tbl = none) →
      ts.length < n → expand tbl n ts = .ok ts := by
  intro ts
  induction ts with
  | nil =>
    intro n _ hn
    cases n with
    | zero => exact absurd hn (by simp)
    | succ k => rfl
  | cons t ts ih =>
    intro n hin hn
    cases n with
    | zero => exact absurd hn (by simp)
    | succ k =>
      have ht : lookupDefn t.tok tbl = none := hin t (List.mem_cons_self _ _)
      have hts : expand tbl k ts = .ok ts :=
        ih k (fun x hx => hin x (List.mem_cons_of_mem _ hx))
          (by simp only [List.length_cons] at hn; omega)
      simp only [expand, expandStep, ht, hts, consOk, ite_self]

theorem collectArgs_append (T : List Token) :
    ∀ (d d1 : Nat) (cur : List HTok) (done : List (List HTok)) (rest : List HTok),
      argScan d T = some d1 →
      collectArgs d cur done (T.map plain ++ rest)
        = collectArgs d1 (cur ++ T.map plain) done rest := by
  induction T with
  | nil =>
    intro d d1 cur done rest h
    simp [argScan] at h
    simp [h]
  | cons t ts ih =>
    intro d d1 cur done rest h
    have e := fun k => ih k d1 (cur ++ [plain t]) done rest
    simp only [List.append_assoc, List.singleton_append] at e
    by_cases h1 : t = "("
    · subst h1
      simp only [argScan, if_true] at h
      simp only [List.map_cons, List.cons_append, collectArgs, plain, if_true]
      exact e _ h
    · by_cases h2 : t = ")"
      · subst h2
        cases d with
        | zero => simp [argScan] at h
        | succ k =>
          simp [argScan] at h
          simp only [List.map_cons, List.cons_append, collectArgs, plain]
          simp only [show ¬ (")" : String) = "(" by decide, if_false, if_true]
          exact e _ h
      · by_cases h3 : t = "," ∧ d = 0
        · simp [argScan, h1, h2, h3] at h
        · simp only [argScan, h1, h2, h3, if_false] at h
          simp only [List.map_cons, List.cons_append, collectArgs, plain, h1, h2, h3, if_false]
          exact e _ h

theorem collectArgs_single (T : List Token) (rest : List HTok) (h : isSingleArg T = true) :
    collectArgs 0 [] [] (T.map plain ++ plain ")" :: rest)
      = some ([T.map plain], [], rest) := by
  have h0 : argScan 0 T = some 0 := by simpa [isSingleArg] using h
  rw [collectArgs_append T 0 0 [] [] _ h0]
  simp [collectArgs, plain]

theorem substitute_lead (a : List HTok) :
    ∀ lead : List Token, "returnType" ∉ lead →
      substitute ["returnType"] [a] (lead ++ ["returnType"]) = lead.map plain ++ a := by
  intro lead
  induction lead with
  | nil => intro _; simp [substitute, argFor]
  | cons t ts ih =>
    intro h
    have ht : ¬ t = "returnType" := fun e => h (by simp [e])
    have hts : "returnType" ∉ ts := fun e => h (List.mem_cons_of_mem _ e)
    simp [substitute, argFor, ht, ih hts]

theorem inert_mem {tbl : Table} {ts : List Token} (h : inert tbl ts = true) :
    ∀ t ∈ ts, lookupDefn t tbl = none := by
  intro t ht
  have := (List.all_eq_true.mp h) t ht
  simpa using this

/-- The invocation `EXPORT ( T ) rest` under a table in which `EXPORT` has the
parameter `returnType` and the replacement list `lead returnType`: when `T` is one
argument and no token of `lead`, `T` and `rest` names a definition, the result is
`lead T rest`. -/
theorem preprocess_invocation (tbl : Table) (lead T rest : List Token)
    (hd : lookupDefn "EXPORT" tbl = some ⟨some ["returnType"], lead ++ ["returnType"]⟩)
    (hlead : "returnType" ∉ lead) (hT : isSingleArg T = true)
    (hin : inert tbl (lead ++ T ++ rest) = true)
    (n : Nat) (hn : lead.length + T.length + rest.length + 2 ≤ n) :
    preprocess n tbl (invocation T rest) = .ok (lead ++ T ++ rest) := by
  obtain ⟨k, rfl⟩ : ∃ k, n = k + 1 := ⟨n - 1, by omega⟩
  have hmem := inert_mem hin
  have hargs : expand tbl k (T.map plain) = .ok (T.map plain) := by
    apply expand_inert
    · intro t ht
      obtain ⟨x, hx, rfl⟩ := List.mem_map.mp ht
      exact hmem x (by simp [hx])
    · simp only [List.length_map]; omega
  have hres : expand tbl k
      (hsadd ("EXPORT" :: hsinter [] []) (lead.map plain ++ T.map plain) ++ rest.map plain)
      = .ok (hsadd ("EXPORT" :: hsinter [] []) (lead.map plain ++ T.map plain)
              ++ rest.map plain) := by
    apply expand_inert
    · intro t ht
      rcases List.mem_append.mp ht with h1 | h1
      · obtain ⟨y, hy, rfl⟩ := List.mem_map.mp h1
        rcases List.mem_append.mp hy with h2 | h2
        · obtain ⟨x, hx, rfl⟩ := List.mem_map.mp h2
          exact hmem x (by simp [hx])
        · obtain ⟨x, hx, rfl⟩ := List.mem_map.mp h2
          exact hmem x (by simp [hx])
      · obtain ⟨x, hx, rfl⟩ := List.mem_map.mp h1
        exact hmem x (by simp [hx])
    · simp only [hsadd, List.length_append, List.length_map]; omega
  have hline : (invocation T rest).map plain
      = plain "EXPORT" :: plain "(" :: (T.map plain ++ plain ")" :: rest.map plain) := by
    simp [invocation]
  have hcontains : (lead ++ ["returnType"]).contains "returnType" = true := by simp
  have hx : expand tbl (k + 1) ((invocation T rest).map plain)
      = .ok (hsadd ("EXPORT" :: hsinter [] []) (lead.map plain ++ T.map plain)
              ++ rest.map plain) := by
    rw [hline]
    simp only [expand, expandStep]
    simp only [plain, List.contains_nil, Bool.false_eq_true, if_false, hd, if_true]
    have hc := collectArgs_single T (rest.map plain) hT
    simp only [plain] at hc hargs hres
    rw [hc]
    simp only [List.cons_ne_nil, false_and, if_false, List.length_cons, List.length_nil,
      if_true, expandArgs, hcontains, hargs]
    have hs := substitute_lead (T.map plain) lead hlead
    simp only [plain] at hs
    rw [hs, hres]
  simp only [preprocess, hx]
  simp [hsadd, plain, Function.comp_def]

theorem preprocess_EXPORT (env : Table) (T rest : List Token) (hT : isSingleArg T = true)
    (hin : inert (headerTable env)
      ((if isDefined "_WIN32" env then "extern" :: exportDirective else ["extern"])
        ++ T ++ rest) = true)
    (n : Nat) (hn : T.length + rest.length + 7 ≤ n) :
    preprocess n (headerTable env) (invocation T rest)
      = .ok ((if isDefined "_WIN32" env then "extern" :: exportDirective else ["extern"])
          ++ T ++ rest) := by
  cases h : isDefined "_WIN32" env
  · rw [h] at hin
    simp only [Bool.false_eq_true, if_false] at hin ⊢
    apply preprocess_invocation _ _ _ _ _ (by decide) hT hin
    · simp only [List.length_cons, List.length_nil]; omega
    · rw [headerTable, lookupDefn_EXPORT, h]; rfl
  · rw [h] at hin
    simp only [if_true] at hin ⊢
    apply preprocess_invocation _ _ _ _ _ (by decide) hT hin
    · simp only [exportDirective, List.length_cons, List.length_nil]; omega
    · rw [headerTable, lookupDefn_EXPORT, h]; rfl

theorem inert_append (tbl : Table) (a b : List Token) :
    inert tbl (a ++ b) = (inert tbl a && inert tbl b) := by
  simp [inert, List.all_append]

theorem preprocess_EXPORT_win32 (env : Table) (T rest : List Token)
    (h : isDefined "_WIN32" env = true) (hT : isSingleArg T = true)
    (hin : inert (headerTable env) ("extern" :: exportDirective ++ T ++ rest) = true)
    (n : Nat) (hn : T.length + rest.length + 7 ≤ n) :
    preprocess n (headerTable env) (invocation T rest)
      = .ok ("extern" :: "__declspec" :: "(" :: "dllexport" :: ")" :: (T ++ rest)) := by
  have e := preprocess_EXPORT env T rest hT (by rw [h]; exact hin) n hn
  rw [e, h]
  rfl

theorem preprocess_EXPORT_other (env : Table) (T rest : List Token)
    (h : isDefined "_WIN32" env = false) (hT : isSingleArg T = true)
    (hin : inert (headerTable env) ("extern" :: T ++ rest) = true)
    (n : Nat) (hn : T.length + rest.length + 7 ≤ n) :
    preprocess n (headerTable env) (invocation T rest) = .ok ("extern" :: (T ++ rest)) := by
  have e := preprocess_EXPORT env T rest hT (by rw [h]; exact hin) n hn
  rw [e, h]
  rfl

theorem expandEXPORT_win32 (env : Table) (T : List Token)
    (h : isDefined "_WIN32" env = true) (hT : isSingleArg T = true)
    (hin : inert (headerTable env) ("extern" :: exportDirective ++ T) = true)
    (n : Nat) (hn : T.length + 7 ≤ n) :
    expandEXPORT n env T
      = .ok ("extern" :: "__declspec" :: "(" :: "dllexport" :: ")" :: T) := by
  have e := preprocess_EXPORT_win32 env T [] h hT (by simpa using hin) n (by simpa using hn)
  simpa [expandEXPORT] using e

theorem expandEXPORT_other (env : Table) (T : List Token)
    (h : isDefined "_WIN32" env = false) (hT : isSingleArg T = true)
    (hin : inert (headerTable env) ("extern" :: T) = true)
    (n : Nat) (hn : T.length + 7 ≤ n) :
    expandEXPORT n env T = .ok ("extern" :: T) := by
  have e := preprocess_EXPORT_other env T [] h hT (by simpa using hin) n (by simpa using hn)
  simpa [expandEXPORT] using e

/-- An outcome obtained within the step budget holds for every larger budget. -/
theorem preprocess_ge (tbl : Table) (line : List Token) (n : Nat) (r : Outcome (List Token))
    (h : preprocess n tbl line = r) (hr : r ≠ .error .outOfFuel) :
    ∀ m, n ≤ m → preprocess m tbl line = r := by
  intro m hm
  rw [preprocess_mono tbl n m hm line (by rw [h]; exact hr), h]

/-- An outcome obtained within the step budget excludes every other result. -/
theorem preprocess_excludes (tbl : Table) (line : List Token) (n : Nat)
    (r : Outcome (List Token)) (h : preprocess n tbl line = r) (hr : r ≠ .error .outOfFuel)
    (out : List Token) (hne : r ≠ .ok out) : ∀ m, preprocess m tbl line ≠ .ok out := by
  intro m hm
  have := preprocess_stable tbl n m line (by rw [h]; exact hr) (by rw [hm]; simp)
  rw [h, hm] at this
  exact hne this

theorem lookupDefn_EXPORT_headerTable (env : Table) :
    lookupDefn "EXPORT" (headerTable env)
      = some (if isDefined "_WIN32" env then exportWin32 else exportOther) :=
  lookupDefn_EXPORT env

/-- The return type `enum { A , B }` has a comma outside parentheses: in every
build environment `EXPORT` is passed two arguments and takes one. -/
theorem expandEXPORT_two_args (env : Table) (n : Nat) :
    expandEXPORT (n + 1) env enumAB
      = .error (.argCount "EXPORT" 2 1) := by
  have hd := lookupDefn_EXPORT_headerTable env
  cases h : isDefined "_WIN32" env
  · rw [h] at hd
    simp [expandEXPORT, preprocess, invocation, expand, expandStep, plain, hd, exportOther,
      collectArgs, enumAB]
  · rw [h] at hd
    simp [expandEXPORT, preprocess, invocation, expand, expandStep, plain, hd, exportWin32,
      collectArgs, enumAB]

theorem expandEXPORT_ge (env : Table) (T : List Token) (n : Nat) (r : Outcome (List Token))
    (h : expandEXPORT n env T = r) (hr : r ≠ .error .outOfFuel) :
    ∀ m, n ≤ m → expandEXPORT m env T = r :=
  preprocess_ge _ _ n r h hr

theorem expandEXPORT_excludes (env : Table) (T : List Token) (n : Nat)
    (r : Outcome (List Token)) (h : expandEXPORT n env T = r) (hr : r ≠ .error .outOfFuel)
    (out : List Token) (hne : r ≠ .ok out) : ∀ m, expandEXPORT m env T ≠ .ok out :=
  preprocess_excludes _ _ n r h hr out hne

/-! ## The claims -/

/-- C1 as stated does not hold for every build environment and every return
type.  In a Windows environment where `__declspec` is itself a macro, as in
GCC-style toolchains, `EXPORT(int)` becomes `extern __attribute__((dllexport))
int`, with any step budget never `extern __declspec(dllexport) int`.  And the
return type `enum { A, B }` has a comma outside parentheses, so `EXPORT` is
passed two arguments and an error is reported instead of an expansion. -/
theorem export_win32_variant_counterexample :
    isDefined "_WIN32" mingwEnv = true
      ∧ (∀ fuel, 20 ≤ fuel → expandEXPORT fuel mingwEnv ["int"]
          = .ok ["extern", "__attribute__", "(", "(", "dllexport", ")", ")", "int"])
      ∧ (∀ fuel, expandEXPORT fuel mingwEnv ["int"]
          ≠ .ok ["extern", "__declspec", "(", "dllexport", ")", "int"])
      ∧ isDefined "_WIN32" win32Env = true
      ∧ (∀ fuel, 20 ≤ fuel → expandEXPORT fuel win32Env enumAB
          = .error (.argCount "EXPORT" 2 1))
      ∧ (∀ fuel, expandEXPORT fuel win32Env enumAB
          ≠ .ok ("extern" :: "__declspec" :: "(" :: "dllexport" :: ")" :: enumAB)) :=
  ⟨by decide,
   expandEXPORT_ge _ _ 20 _ (by decide) (by decide),
   expandEXPORT_excludes _ _ 20 _ (by decide : expandEXPORT 20 mingwEnv ["int"]
      = .ok ["extern", "__attribute__", "(", "(", "dllexport", ")", ")", "int"])
      (by decide) _ (by decide),
   by decide,
   expandEXPORT_ge _ _ 20 _ (by decide) (by decide),
   expandEXPORT_excludes _ _ 20 _
      (by decide : expandEXPORT 20 win32Env enumAB
        = .error (.argCount "EXPORT" 2 1))
      (by decide) _ (by decide)⟩

/-- C1, amended (Windows variant): in every build environment that defines
`_WIN32` the header gives `EXPORT` the replacement list
`extern __declspec ( dllexport ) returnType`.  For every return type `T` that the
preprocessor reads as one argument, when none of the tokens of
`extern __declspec ( dllexport )` and of `T` names a macro after the header,
`EXPORT(T)` expands, with every sufficient step budget, to exactly
`extern __declspec ( dllexport )` followed by `T`: external linkage, then the
export directive, then `T`. -/
theorem export_win32_variant (env : Table) (T : List Token)
    (h : isDefined "_WIN32" env = true) :
    lookupDefn "EXPORT" (headerTable env) = some exportWin32
      ∧ (isSingleArg T = true →
          inert (headerTable env) ("extern" :: exportDirective ++ T) = true →
          ∀ fuel, T.length + 7 ≤ fuel →
            expandEXPORT fuel env T
                = .ok ("extern" :: "__declspec" :: "(" :: "dllexport" :: ")" :: T)
              ∧ expandEXPORT fuel env T = .ok (["extern"] ++ exportDirective ++ T)) := by
  refine ⟨by rw [lookupDefn_EXPORT_headerTable, h]; rfl, ?_⟩
  intro hT hin fuel hf
  exact ⟨expandEXPORT_win32 env T h hT hin fuel hf, expandEXPORT_win32 env T h hT hin fuel hf⟩

/-- Witness of amended C1 at the Windows environment and the return type `int`. -/
theorem export_win32_variant_witness :
    isDefined "_WIN32" win32Env = true ∧ isSingleArg ["int"] = true
      ∧ inert (headerTable win32Env) ("extern" :: exportDirective ++ ["int"]) = true
      ∧ lookupDefn "EXPORT" (headerTable win32Env) = some exportWin32
      ∧ expandEXPORT 8 win32Env ["int"]
          = .ok ["extern", "__declspec", "(", "dllexport", ")", "int"] :=
  ⟨by decide, by decide, by decide,
   (export_win32_variant win32Env ["int"] (by decide)).1,
   ((export_win32_variant win32Env ["int"] (by decide)).2 (by decide) (by decide) 8
      (by decide)).1⟩

/-- C2 as stated does not hold for every build environment and every return
type.  With `sqInt` defined as `long` and `_WIN32` undefined, `EXPORT(sqInt)`
becomes `extern long`, not `extern sqInt`.  And in the environment that defines
nothing, the return type `enum { A, B }` makes the preprocessor report an error
(two arguments passed to `EXPORT`), so there is no expansion at all. -/
theorem export_other_variant_counterexample :
    isDefined "_WIN32" sqIntEnv = false
      ∧ (∀ fuel, 20 ≤ fuel → expandEXPORT fuel sqIntEnv ["sqInt"] = .ok ["extern", "long"])
      ∧ (∀ fuel, expandEXPORT fuel sqIntEnv ["sqInt"] ≠ .ok ["extern", "sqInt"])
      ∧ isDefined "_WIN32" [] = false
      ∧ (∀ fuel, 20 ≤ fuel → expandEXPORT fuel [] enumAB
          = .error (.argCount "EXPORT" 2 1))
      ∧ (∀ fuel, expandEXPORT fuel [] enumAB
          ≠ .ok ("extern" :: enumAB)) :=
  ⟨by decide,
   expandEXPORT_ge _ _ 20 _ (by decide) (by decide),
   expandEXPORT_excludes _ _ 20 _
      (by decide : expandEXPORT 20 sqIntEnv ["sqInt"] = .ok ["extern", "long"])
      (by decide) _ (by decide),
   by decide,
   expandEXPORT_ge _ _ 20 _ (by decide) (by decide),
   expandEXPORT_excludes _ _ 20 _
      (by decide : expandEXPORT 20 [] enumAB
        = .error (.argCount "EXPORT" 2 1))
      (by decide) _ (by decide)⟩

/-- C2, amended (non-Windows variant): in every build environment that does not
define `_WIN32`, also one that defines nothing at all, the header gives `EXPORT`
the replacement list `extern returnType` and reports no error (no diagnostic at
all when `EXPORT` was not defined before).  For every return type `T` that the
preprocessor reads as one argument, when neither `extern` nor a token of `T`
names a macro after the header, `EXPORT(T)` expands without error, with every
sufficient step budget, to exactly `extern` followed by `T`; the expansion then
contains no export directive token anywhere, `T` containing none. -/
theorem export_other_variant (env : Table) (T : List Token)
    (h : isDefined "_WIN32" env = false) :
    lookupDefn "EXPORT" (headerTable env) = some exportOther
      ∧ (∀ x ∈ (sqPlatformSpecific (start env)).diagnostics, x.isError = false)
      ∧ (lookupDefn "EXPORT" env = none →
          (sqPlatformSpecific (start env)).diagnostics = [])
      ∧ (isSingleArg T = true → inert (headerTable env) ("extern" :: T) = true →
          ∀ fuel, T.length + 7 ≤ fuel →
            expandEXPORT fuel env T = .ok ("extern" :: T)
              ∧ ((∀ t ∈ T, isExportDirectiveToken t = false) →
                  ∀ e, expandEXPORT fuel env T = .ok e →
                    ∀ t ∈ e, isExportDirectiveToken t = false)) := by
  refine ⟨by rw [lookupDefn_EXPORT_headerTable, h]; rfl, ?_, ?_, ?_⟩
  · rw [sqPlatformSpecific_start]
    exact diagnostics_define_noError _ _ _ (by simp [start])
  · intro hE
    rw [sqPlatformSpecific_start, define_fresh _ _ _ (by simpa [start] using hE)]
    rfl
  · intro hT hin fuel hf
    have hexp := expandEXPORT_other env T h hT hin fuel hf
    refine ⟨hexp, ?_⟩
    intro hdir e he t ht
    rw [hexp] at he
    cases he
    rcases List.mem_cons.mp ht with e1 | e1
    · subst e1
      decide
    · exact hdir t e1

/-- Witness of amended C2 at the environment that defines nothing at all and the
return type `int`. -/
theorem export_other_variant_witness :
    isDefined "_WIN32" [] = false ∧ isSingleArg ["int"] = true
      ∧ inert (headerTable []) ("extern" :: ["int"]) = true
      ∧ lookupDefn "EXPORT" [] = none
      ∧ (∀ t ∈ ["int"], isExportDirectiveToken t = false)
      ∧ (sqPlatformSpecific (start [])).diagnostics = []
      ∧ expandEXPORT 8 [] ["int"] = .ok ["extern", "int"]
      ∧ (∀ e, expandEXPORT 8 [] ["int"] = .ok e →
          ∀ t ∈ e, isExportDirectiveToken t = false) :=
  ⟨by decide, by decide, by decide, by decide, by decide,
   (export_other_variant [] ["int"] (by decide)).2.2.1 (by decide),
   ((export_other_variant [] ["int"] (by decide)).2.2.2 (by decide) (by decide) 8
      (by decide)).1,
   ((export_other_variant [] ["int"] (by decide)).2.2.2 (by decide) (by decide) 8
      (by decide)).2 (by decide)⟩

theorem inert_headerTable_of (env : Table) (ts : List Token)
    (h1 : "EXPORT" ∉ ts) (h2 : inert env ts = true) : inert (headerTable env) ts = true := by
  rw [inert, List.all_eq_true]
  intro t ht
  have hne : t ≠ "EXPORT" := fun e => h1 (e ▸ ht)
  rw [headerTable, sqPlatformSpecific_start, lookupDefn_define_ne hne]
  simpa [start] using inert_mem h2 t ht

theorem inert_of_not_mem (T : List Token) (name : String) (d : Defn) (h : name ∉ T) :
    inert [(name, d)] T = true := by
  rw [inert, List.all_eq_true]
  intro t ht
  have hne : ¬ name = t := fun e => h (e ▸ ht)
  simp [lookupDefn, hne]

/-- C4 as stated does not hold.  The environment that defines `sqInt` as `long`
and the environment that defines nothing agree on `_WIN32` (undefined in both),
yet `EXPORT(sqInt)` becomes `extern long` in the first and `extern sqInt` in the
second, never the same result; with the Windows environment the expansion of
`EXPORT(sqInt)` takes a third value.  For the return type `enum { A, B }` the
expansion takes no value at all, in any build environment. -/
theorem export_two_variants_counterexample :
    isDefined "_WIN32" sqIntEnv = isDefined "_WIN32" []
      ∧ (∀ fuel, 20 ≤ fuel →
          expandEXPORT fuel sqIntEnv ["sqInt"] = .ok ["extern", "long"]
          ∧ expandEXPORT fuel [] ["sqInt"] = .ok ["extern", "sqInt"]
          ∧ expandEXPORT fuel win32Env ["sqInt"]
              = .ok ["extern", "__declspec", "(", "dllexport", ")", "sqInt"])
      ∧ (∀ (f1 f2 : Nat) (v : List Token),
          expandEXPORT f1 sqIntEnv ["sqInt"] = .ok v →
            expandEXPORT f2 [] ["sqInt"] ≠ .ok v)
      ∧ (∀ (env : Table) (fuel : Nat) (v : List Token),
          expandEXPORT fuel env enumAB ≠ .ok v) := by
  refine ⟨by decide, ?_, ?_, ?_⟩
  · intro fuel hf
    exact ⟨expandEXPORT_ge _ _ 20 _ (by decide) (by decide) fuel hf,
      expandEXPORT_ge _ _ 20 _ (by decide) (by decide) fuel hf,
      expandEXPORT_ge _ _ 20 _ (by decide) (by decide) fuel hf⟩
  · intro f1 f2 v h1 h2
    have e1 : expandEXPORT 20 sqIntEnv ["sqInt"] = .ok ["extern", "long"] := by decide
    have e2 : expandEXPORT 20 [] ["sqInt"] = .ok ["extern", "sqInt"] := by decide
    have a := preprocess_stable _ 20 f1 _ (by rw [← expandEXPORT, e1]; simp)
      (by rw [← expandEXPORT, h1]; simp)
    have b := preprocess_stable _ 20 f2 _ (by rw [← expandEXPORT, e2]; simp)
      (by rw [← expandEXPORT, h2]; simp)
    rw [← expandEXPORT, ← expandEXPORT, e1, h1] at a
    rw [← expandEXPORT, ← expandEXPORT, e2, h2] at b
    injection a with a
    injection b with b
    rw [← a] at b
    exact absurd b (by decide)
  · intro env fuel v
    cases fuel with
    | zero => simp [expandEXPORT, preprocess, expand]
    | succ n => rw [expandEXPORT_two_args]; simp

/-- C4, amended (two variants, one indicator): two build environments that agree
on whether `_WIN32` is defined get the same definition of `EXPORT` from the
header, whatever else they define.  For a return type `T` that the preprocessor
reads as one argument, they give the same expansion of `EXPORT(T)` when in
neither of them a token of that expansion (`extern`, on Windows
`__declspec ( dllexport )`, and `T`) names a macro after the header.  Over all
such build environments the expansion of `EXPORT(T)` takes no other value than
the two variants, which differ; both are taken when `T` mentions neither `EXPORT`
nor `_WIN32`. -/
theorem export_two_variants (T : List Token) (hT : isSingleArg T = true) :
    (∀ env1 env2 : Table, isDefined "_WIN32" env1 = isDefined "_WIN32" env2 →
        lookupDefn "EXPORT" (headerTable env1) = lookupDefn "EXPORT" (headerTable env2)
        ∧ (isDefined "_WIN32" env1 = true →
            inert (headerTable env1) ("extern" :: exportDirective ++ T) = true →
            inert (headerTable env2) ("extern" :: exportDirective ++ T) = true →
            ∀ fuel, T.length + 7 ≤ fuel →
              expandEXPORT fuel env1 T = expandEXPORT fuel env2 T)
        ∧ (isDefined "_WIN32" env1 = false →
            inert (headerTable env1) ("extern" :: T) = true →
            inert (headerTable env2) ("extern" :: T) = true →
            ∀ fuel, T.length + 7 ≤ fuel →
              expandEXPORT fuel env1 T = expandEXPORT fuel env2 T))
      ∧ ("extern" :: "__declspec" :: "(" :: "dllexport" :: ")" :: T) ≠ "extern" :: T
      ∧ (∀ (env : Table) (v : List Token),
          ((isDefined "_WIN32" env = true
              ∧ inert (headerTable env) ("extern" :: exportDirective ++ T) = true)
            ∨ (isDefined "_WIN32" env = false
              ∧ inert (headerTable env) ("extern" :: T) = true)) →
          (∀ fuel, T.length + 7 ≤ fuel → expandEXPORT fuel env T = .ok v) →
          (v = "extern" :: "__declspec" :: "(" :: "dllexport" :: ")" :: T
            ∨ v = "extern" :: T))
      ∧ ("EXPORT" ∉ T → "_WIN32" ∉ T →
          (∃ env : Table, isDefined "_WIN32" env = true
            ∧ inert (headerTable env) ("extern" :: exportDirective ++ T) = true
            ∧ ∀ fuel, T.length + 7 ≤ fuel →
                expandEXPORT fuel env T
                  = .ok ("extern" :: "__declspec" :: "(" :: "dllexport" :: ")" :: T))
          ∧ (∃ env : Table, isDefined "_WIN32" env = false
            ∧ inert (headerTable env) ("extern" :: T) = true
            ∧ ∀ fuel, T.length + 7 ≤ fuel → expandEXPORT fuel env T = .ok ("extern" :: T))) := by
  refine ⟨?_, ?_, ?_, ?_⟩
  · intro env1 env2 h
    refine ⟨by rw [lookupDefn_EXPORT_headerTable, lookupDefn_EXPORT_headerTable, h], ?_, ?_⟩
    · intro hw h1 h2 fuel hf
      rw [expandEXPORT_win32 env1 T hw hT h1 fuel hf,
        expandEXPORT_win32 env2 T (h ▸ hw) hT h2 fuel hf]
    · intro hw h1 h2 fuel hf
      rw [expandEXPORT_other env1 T hw hT h1 fuel hf,
        expandEXPORT_other env2 T (h ▸ hw) hT h2 fuel hf]
  · intro e
    have hl := congrArg List.length e
    simp at hl
    omega
  · intro env v hq hv
    have hv0 := hv _ (Nat.le_refl _)
    rcases hq with ⟨hw, hin⟩ | ⟨hw, hin⟩
    · rw [expandEXPORT_win32 env T hw hT hin _ (Nat.le_refl _)] at hv0
      injection hv0 with hv0
      exact Or.inl hv0.symm
    · rw [expandEXPORT_other env T hw hT hin _ (Nat.le_refl _)] at hv0
      injection hv0 with hv0
      exact Or.inr hv0.symm
  · intro hE hW
    refine ⟨⟨win32Env, by decide, ?_, ?_⟩, ⟨[], by decide, ?_, ?_⟩⟩
    · have hin : inert (headerTable win32Env) ("extern" :: exportDirective ++ T) = true := by
        apply inert_headerTable_of
        · intro hm
          rcases List.mem_append.mp hm with h1 | h1
          · exact absurd h1 (by decide)
          · exact hE h1
        · rw [inert_append]
          simp only [Bool.and_eq_true]
          exact ⟨by decide, inert_of_not_mem T _ _ hW⟩
      exact hin
    · intro fuel hf
      apply expandEXPORT_win32 win32Env T (by decide) hT _ fuel hf
      apply inert_headerTable_of
      · intro hm
        rcases List.mem_append.mp hm with h1 | h1
        · exact absurd h1 (by decide)
        · exact hE h1
      · rw [inert_append]
        simp only [Bool.and_eq_true]
        exact ⟨by decide, inert_of_not_mem T _ _ hW⟩
    · apply inert_headerTable_of
      · intro hm
        rcases List.mem_cons.mp hm with h1 | h1
        · exact absurd h1 (by decide)
        · exact hE h1
      · simp [inert, lookupDefn]
    · intro fuel hf
      apply expandEXPORT_other [] T (by decide) hT _ fuel hf
      apply inert_headerTable_of
      · intro hm
        rcases List.mem_cons.mp hm with h1 | h1
        · exact absurd h1 (by decide)
        · exact hE h1
      · simp [inert, lookupDefn]

/-- Witness of amended C4: two environments that both define `_WIN32`, with
different replacement texts and different other names (one of them an earlier
`EXPORT`), expand `EXPORT(int)` alike. -/
theorem export_two_variants_witness :
    isSingleArg ["int"] = true
      ∧ isDefined "_WIN32" win32Env
        = isDefined "_WIN32"
            [("EXPORT", ⟨none, []⟩), ("DEBUG", ⟨none, []⟩), ("_WIN32", ⟨none, []⟩)]
      ∧ isDefined "_WIN32" win32Env = true
      ∧ inert (headerTable win32Env) ("extern" :: exportDirective ++ ["int"]) = true
      ∧ inert (headerTable
            [("EXPORT", ⟨none, []⟩), ("DEBUG", ⟨none, []⟩), ("_WIN32", ⟨none, []⟩)])
          ("extern" :: exportDirective ++ ["int"]) = true
      ∧ expandEXPORT 8 win32Env ["int"]
        = expandEXPORT 8
            [("EXPORT", ⟨none, []⟩), ("DEBUG", ⟨none, []⟩), ("_WIN32", ⟨none, []⟩)] ["int"]
      ∧ "EXPORT" ∉ ["int"] ∧ "_WIN32" ∉ ["int"]
      ∧ (∃ env : Table, isDefined "_WIN32" env = false
          ∧ inert (headerTable env) ("extern" :: ["int"]) = true
          ∧ ∀ fuel, ["int"].length + 7 ≤ fuel →
              expandEXPORT fuel env ["int"] = .ok ("extern" :: ["int"])) :=
  ⟨by decide, by decide, by decide, by decide, by decide,
   ((export_two_variants ["int"] (by decide)).1 _ _ (by decide)).2.1 (by decide) (by decide)
     (by decide) 8 (by decide),
   by decide, by decide,
   ((export_two_variants ["int"] (by decide)).2.2.2 (by decide) (by decide)).2⟩

/-- C5 as stated does not hold for every build environment.  In a Windows
environment where `__declspec` is itself a macro, the expansion of `EXPORT(int)`
is `extern __attribute__((dllexport)) int`: it contains no `__declspec(dllexport)`
to delete and differs from the non-Windows expansion `extern int`.  With `extern`
defined as `static` the expansion starts with `static`.  And for the return type
`enum { A, B }` there is no expansion on either platform: `EXPORT` is passed two
arguments. -/
theorem export_win32_adds_directive_counterexample :
    isDefined "_WIN32" mingwEnv = true ∧ isDefined "_WIN32" posixEnv = false
      ∧ (∀ fuel, 20 ≤ fuel →
          expandEXPORT fuel mingwEnv ["int"]
            = .ok ["extern", "__attribute__", "(", "(", "dllexport", ")", ")", "int"]
          ∧ expandEXPORT fuel posixEnv ["int"] = .ok ["extern", "int"])
      ∧ removeFirst exportDirective
            ["extern", "__attribute__", "(", "(", "dllexport", ")", ")", "int"]
          ≠ ["extern", "int"]
      ∧ isDefined "_WIN32" staticEnv = false
      ∧ (∀ fuel, 20 ≤ fuel → expandEXPORT fuel staticEnv ["int"] = .ok ["static", "int"])
      ∧ (["static", "int"] : List Token).head? ≠ some "extern"
      ∧ (∀ (fuel : Nat) (w : List Token),
          expandEXPORT fuel win32Env enumAB ≠ .ok w
          ∧ expandEXPORT fuel posixEnv enumAB ≠ .ok w) :=
  ⟨by decide, by decide,
   fun fuel hf => ⟨expandEXPORT_ge _ _ 20 _ (by decide) (by decide) fuel hf,
     expandEXPORT_ge _ _ 20 _ (by decide) (by decide) fuel hf⟩,
   by decide, by decide,
   expandEXPORT_ge _ _ 20 _ (by decide) (by decide),
   by decide,
   fun fuel w =>
    ⟨expandEXPORT_excludes _ _ 20 _
        (by decide : expandEXPORT 20 win32Env enumAB
          = .error (.argCount "EXPORT" 2 1)) (by decide) w (by simp) fuel,
     expandEXPORT_excludes _ _ 20 _
        (by decide : expandEXPORT 20 posixEnv enumAB
          = .error (.argCount "EXPORT" 2 1)) (by decide) w (by simp) fuel⟩⟩

/-- C5, amended (the Windows variant only adds to the other one): for every
return type `T` that the preprocessor reads as one argument, a Windows build
environment in which no token of `extern __declspec ( dllexport )` and of `T`
names a macro after the header, and a non-Windows one in which neither `extern`
nor a token of `T` does, both give an expansion of `EXPORT(T)` that starts with
`extern`; the Windows expansion is `extern`, the export directive
`__declspec ( dllexport )`, then `T`, and deleting that directive (its first
occurrence) from it gives exactly the non-Windows expansion. -/
theorem export_win32_adds_directive (envW envP : Table) (T : List Token)
    (hW : isDefined "_WIN32" envW = true) (hP : isDefined "_WIN32" envP = false)
    (hT : isSingleArg T = true)
    (hinW : inert (headerTable envW) ("extern" :: exportDirective ++ T) = true)
    (hinP : inert (headerTable envP) ("extern" :: T) = true)
    (fuel : Nat) (hf : T.length + 7 ≤ fuel) :
    ∃ w p : List Token,
      expandEXPORT fuel envW T = .ok w ∧ expandEXPORT fuel envP T = .ok p
        ∧ w.head? = some "extern" ∧ p.head? = some "extern"
        ∧ w = ["extern"] ++ exportDirective ++ T
        ∧ p = ["extern"] ++ T
        ∧ removeFirst exportDirective w = p := by
  refine ⟨"extern" :: "__declspec" :: "(" :: "dllexport" :: ")" :: T, "extern" :: T,
    expandEXPORT_win32 envW T hW hT hinW fuel hf,
    expandEXPORT_other envP T hP hT hinP fuel hf, rfl, rfl, rfl, rfl, ?_⟩
  simp [removeFirst, startsWith, exportDirective]

/-- Witness of amended C5 at the two example platforms and the return type
`int`. -/
theorem export_win32_adds_directive_witness :
    isDefined "_WIN32" win32Env = true ∧ isDefined "_WIN32" posixEnv = false
      ∧ isSingleArg ["int"] = true
      ∧ inert (headerTable win32Env) ("extern" :: exportDirective ++ ["int"]) = true
      ∧ inert (headerTable posixEnv) ("extern" :: ["int"]) = true
      ∧ ∃ w p : List Token,
          expandEXPORT 8 win32Env ["int"] = .ok w ∧ expandEXPORT 8 posixEnv ["int"] = .ok p
            ∧ w.head? = some "extern" ∧ p.head? = some "extern"
            ∧ w = ["extern"] ++ exportDirective ++ ["int"]
            ∧ p = ["extern"] ++ ["int"]
            ∧ removeFirst exportDirective w = p :=
  ⟨by decide, by decide, by decide, by decide, by decide,
   export_win32_adds_directive win32Env posixEnv ["int"] (by decide) (by decide)
     (by decide) (by decide) (by decide) 8 (by decide)⟩

/-- C8 as stated does not hold for every build environment and every return
type.  With `_WIN32` defined as `0` and `__declspec(a)` defined with an empty
replacement list, `EXPORT(int)` becomes `extern int`: an environment that defines
`_WIN32` gets `extern T`, and not the Windows variant.  And with `_WIN32` defined
as `0` and nothing else, the return type `enum { A, B }` gives an error, not the
Windows variant. -/
theorem export_branch_by_definedness_counterexample :
    lookupDefn "_WIN32" emptyDeclspecEnv = some ⟨none, ["0"]⟩
      ∧ (∀ fuel, 20 ≤ fuel → expandEXPORT fuel emptyDeclspecEnv ["int"] = .ok ["extern", "int"])
      ∧ (∀ fuel, expandEXPORT fuel emptyDeclspecEnv ["int"]
          ≠ .ok ["extern", "__declspec", "(", "dllexport", ")", "int"])
      ∧ lookupDefn "_WIN32" [("_WIN32", ⟨none, ["0"]⟩)] = some ⟨none, ["0"]⟩
      ∧ (∀ fuel, expandEXPORT fuel [("_WIN32", ⟨none, ["0"]⟩)] enumAB
          ≠ .ok ("extern" :: "__declspec" :: "(" :: "dllexport" :: ")" :: enumAB)) :=
  ⟨by decide,
   expandEXPORT_ge _ _ 20 _ (by decide) (by decide),
   expandEXPORT_excludes _ _ 20 _
     (by decide : expandEXPORT 20 emptyDeclspecEnv ["int"] = .ok ["extern", "int"])
     (by decide) _ (by decide),
   by decide,
   expandEXPORT_excludes _ _ 20 _
     (by decide : expandEXPORT 20 [("_WIN32", ⟨none, ["0"]⟩)]
          enumAB = .error (.argCount "EXPORT" 2 1))
     (by decide) _ (by decide)⟩

/-- C8, amended (defined, not true): the header selects the Windows definition of
`EXPORT` as soon as the build environment records any definition for `_WIN32`,
whatever its replacement text, in particular `0` and the empty replacement, and
the other definition exactly when `_WIN32` is not defined.  For every return type
`T` that the preprocessor reads as one argument: when `_WIN32` is defined and no
token of `extern __declspec ( dllexport )` and of `T` names a macro after the
header, `EXPORT(T)` expands to the Windows variant and never to `extern T`; when
`_WIN32` is not defined and neither `extern` nor a token of `T` names a macro,
`EXPORT(T)` expands to `extern T`. -/
theorem export_branch_by_definedness (env : Table) (T : List Token) :
    (∀ d : Defn, lookupDefn "_WIN32" env = some d →
        lookupDefn "EXPORT" (headerTable env) = some exportWin32)
      ∧ (∀ text : List Token,
          lookupDefn "EXPORT" (headerTable (("_WIN32", ⟨none, text⟩) :: env))
            = some exportWin32)
      ∧ (lookupDefn "EXPORT" (headerTable env) = some exportOther
          ↔ lookupDefn "_WIN32" env = none)
      ∧ (isSingleArg T = true →
          (∀ d : Defn, lookupDefn "_WIN32" env = some d →
            inert (headerTable env) ("extern" :: exportDirective ++ T) = true →
              (∀ fuel, T.length + 7 ≤ fuel →
                expandEXPORT fuel env T
                  = .ok ("extern" :: "__declspec" :: "(" :: "dllexport" :: ")" :: T))
              ∧ (∀ fuel, expandEXPORT fuel env T ≠ .ok ("extern" :: T)))
          ∧ (lookupDefn "_WIN32" env = none →
              inert (headerTable env) ("extern" :: T) = true →
              ∀ fuel, T.length + 7 ≤ fuel → expandEXPORT fuel env T = .ok ("extern" :: T))
          ∧ (∀ text : List Token,
              inert (headerTable (("_WIN32", ⟨none, text⟩) :: env))
                  ("extern" :: exportDirective ++ T) = true →
              ∀ fuel, T.length + 7 ≤ fuel →
                expandEXPORT fuel (("_WIN32", ⟨none, text⟩) :: env) T
                  = .ok ("extern" :: "__declspec" :: "(" :: "dllexport" :: ")" :: T))) := by
  have defd : ∀ (e : Table) (d : Defn), lookupDefn "_WIN32" e = some d →
      isDefined "_WIN32" e = true := by
    intro e d hd
    simp [isDefined, hd]
  have cons : ∀ text : List Token,
      lookupDefn "_WIN32" (("_WIN32", (⟨none, text⟩ : Defn)) :: env) = some ⟨none, text⟩ := by
    intro text
    simp [lookupDefn]
  have sel : ∀ (e : Table) (d : Defn), lookupDefn "_WIN32" e = some d →
      lookupDefn "EXPORT" (headerTable e) = some exportWin32 := by
    intro e d hd
    rw [lookupDefn_EXPORT_headerTable, defd e d hd]; rfl
  refine ⟨sel env, fun text => sel _ _ (cons text), ?_, ?_⟩
  · rw [lookupDefn_EXPORT_headerTable]
    cases hl : lookupDefn "_WIN32" env with
    | none =>
      have : isDefined "_WIN32" env = false := by simp [isDefined, hl]
      simp [this]
    | some d =>
      rw [defd env d hl]
      simp only [if_true]
      constructor
      · intro e
        exact absurd (Option.some.inj e) (by decide)
      · intro e
        exact absurd e (by simp)
  · intro hT
    refine ⟨?_, ?_, ?_⟩
    · intro d hd hin
      have hwin : ∀ fuel, T.length + 7 ≤ fuel →
            expandEXPORT fuel env T
              = .ok ("extern" :: "__declspec" :: "(" :: "dllexport" :: ")" :: T) :=
        fun fuel hf => expandEXPORT_win32 env T (defd env d hd) hT hin fuel hf
      refine ⟨hwin, ?_⟩
      have hne : (Outcome.ok ("extern" :: "__declspec" :: "(" :: "dllexport" :: ")" :: T)
          : Outcome (List Token)) ≠ .ok ("extern" :: T) := by
        intro e
        injection e with e
        have hlen := congrArg List.length e
        simp at hlen
        omega
      exact expandEXPORT_excludes env T _ _ (hwin _ (Nat.le_refl _)) (by simp) _ hne
    · intro hn hin fuel hf
      have hdef : isDefined "_WIN32" env = false := by simp [isDefined, hn]
      exact expandEXPORT_other env T hdef hT hin fuel hf
    · intro text hin fuel hf
      exact expandEXPORT_win32 _ T (defd _ _ (cons text)) hT hin fuel hf

/-- Witness of amended C8: `_WIN32` defined as `0`, and `_WIN32` defined with an
empty replacement, still select the Windows variant. -/
theorem export_branch_by_definedness_witness :
    lookupDefn "_WIN32" [("_WIN32", ⟨none, ["0"]⟩)] = some ⟨none, ["0"]⟩
      ∧ isSingleArg ["int"] = true
      ∧ inert (headerTable [("_WIN32", ⟨none, ["0"]⟩)])
          ("extern" :: exportDirective ++ ["int"]) = true
      ∧ inert (headerTable [("_WIN32", ⟨none, []⟩)])
          ("extern" :: exportDirective ++ ["int"]) = true
      ∧ lookupDefn "_WIN32" posixEnv = none
      ∧ inert (headerTable posixEnv) ("extern" :: ["int"]) = true
      ∧ lookupDefn "EXPORT" (headerTable [("_WIN32", ⟨none, ["0"]⟩)]) = some exportWin32
      ∧ expandEXPORT 8 [("_WIN32", ⟨none, ["0"]⟩)] ["int"]
          = .ok ["extern", "__declspec", "(", "dllexport", ")", "int"]
      ∧ expandEXPORT 8 [("_WIN32", ⟨none, []⟩)] ["int"]
          = .ok ["extern", "__declspec", "(", "dllexport", ")", "int"]
      ∧ expandEXPORT 8 posixEnv ["int"] = .ok ["extern", "int"] :=
  ⟨by decide, by decide, by decide, by decide, by decide, by decide,
   (export_branch_by_definedness [("_WIN32", ⟨none, ["0"]⟩)] ["int"]).1 ⟨none, ["0"]⟩
     (by decide),
   (((export_branch_by_definedness [("_WIN32", ⟨none, ["0"]⟩)] ["int"]).2.2.2 (by decide)).1
     ⟨none, ["0"]⟩ (by decide) (by decide)).1 8 (by decide),
   ((export_branch_by_definedness [] ["int"]).2.2.2 (by decide)).2.2 [] (by decide) 8
     (by decide),
   ((export_branch_by_definedness posixEnv ["int"]).2.2.2 (by decide)).2.1 (by decide)
     (by decide) 8 (by decide)⟩

/-- C9 (including twice): the header has no include guard, so a second inclusion
runs its `#define` again; in every build environment that does not already
define `EXPORT`, the second pass tests `_WIN32` with the same outcome, finds
`EXPORT` recorded with exactly the parameters and replacement list it is about
to define, and leaves the preprocessor state (table and diagnostics) as the
first pass left it, with nothing reported. -/
theorem header_twice (env : Table) (h : lookupDefn "EXPORT" env = none) :
    sqPlatformSpecific (sqPlatformSpecific (start env)) = sqPlatformSpecific (start env)
      ∧ (sqPlatformSpecific (sqPlatformSpecific (start env))).table
          = (sqPlatformSpecific (start env)).table
      ∧ isDefined "_WIN32" (sqPlatformSpecific (start env)).table = isDefined "_WIN32" env
      ∧ (∃ d : Defn,
          (sqPlatformSpecific (start env)).table = ("EXPORT", d) :: env
          ∧ lookupDefn "EXPORT" (sqPlatformSpecific (start env)).table = some d
          ∧ sqPlatformSpecific (sqPlatformSpecific (start env))
              = define "EXPORT" d (sqPlatformSpecific (start env)))
      ∧ (sqPlatformSpecific (sqPlatformSpecific (start env))).diagnostics = [] := by
  have hs := sqPlatformSpecific_start env
  have hf := define_fresh "EXPORT"
    (if isDefined "_WIN32" env then exportWin32 else exportOther) (start env)
    (by simpa [start] using h)
  have h2 := sqPlatformSpecific_twice (start env)
  have hw : isDefined "_WIN32" (sqPlatformSpecific (start env)).table
      = isDefined "_WIN32" env := by
    rw [hs, isDefined_WIN32_define_EXPORT]; rfl
  refine ⟨h2, by rw [h2], hw, ?_, ?_⟩
  · refine ⟨if isDefined "_WIN32" env then exportWin32 else exportOther, ?_, ?_, ?_⟩
    · rw [hs, hf]; rfl
    · exact lookupDefn_EXPORT env
    · rw [h2]
      conv => lhs; rw [hs]
      rw [hs, define_define]
  · rw [h2, hs, hf]; rfl

/-- Witness of C9 at the Windows example environment. -/
theorem header_twice_witness :
    lookupDefn "EXPORT" win32Env = none
      ∧ sqPlatformSpecific (sqPlatformSpecific (start win32Env))
          = sqPlatformSpecific (start win32Env)
      ∧ (sqPlatformSpecific (sqPlatformSpecific (start win32Env))).diagnostics = [] :=
  ⟨by decide,
   (header_twice win32Env (by decide)).1,
   (header_twice win32Env (by decide)).2.2.2.2⟩

end SqPlatformSpecific
